import Mathlib

/-!
Shallow embedding of the native support layer of the classroom-app
repository (src/src-tauri/src): error type (errors.rs), CSV path
validation, config persistence, encoding detection and CSV parsing
(file_ops.rs), window geometry (window.rs, commands.rs), and the
permission probe (permissions.rs).

Modelling conventions:
- Rust `&str` / `String` text is `String` (or `List Char` where the code
  iterates over characters); raw bytes (`&[u8]`) are `List Nat` with each
  byte below 256; decoded text produced from bytes is a `List Nat` of
  Unicode scalar values.
- Filesystem reads/writes are abstracted: the config file's state is the
  parse outcome of its content (`none` = file absent, `some none` = file
  present but not valid JSON, `some (some j)` = file parses to `j`); the
  serde_json round-trip `from_str (to_string_pretty v) = v` is folded into
  this representation.
- A path is abstracted by what `validate_csv_path` observes of it: its
  extension and the outcome of canonicalization (canonical paths are
  component lists, `Path::starts_with` is component-wise prefix).
- External effects (OS audio checks, subprocess invocations) are
  parameters describing their outcome, as in the Rust code's own
  `Result`/`Option` plumbing around them.
-/

namespace ClassroomApp

/-! ## errors.rs -/

/-- `BackendError` of errors.rs: flat code / message / optional details. -/
structure BackendError where
  code : String
  message : String
  details : Option String
deriving DecidableEq, Repr

/-- `BackendError::new` (details start out absent). -/
def BackendError.new (code message : String) : BackendError :=
  ⟨code, message, none⟩

/-- `BackendError::with_details`. -/
def BackendError.with_details (e : BackendError) (details : String) : BackendError :=
  { e with details := some details }

namespace errors

namespace file

def NOT_FOUND : String := "FILE_NOT_FOUND"

def PERMISSION_DENIED : String := "FILE_PERMISSION_DENIED"

def INVALID_FORMAT : String := "INVALID_FILE_FORMAT"

def ENCODING_ERROR : String := "ENCODING_ERROR"

def IO_ERROR : String := "FILE_IO_ERROR"

end file

namespace system

def UNKNOWN_ERROR : String := "UNKNOWN_ERROR"

def INVALID_INPUT : String := "INVALID_INPUT"

end system

end errors

/-! ## file_ops.rs: validate_csv_path -/

/-- `MAX_PATH_DEPTH` of file_ops.rs. -/
def MAX_PATH_DEPTH : Nat := 10

/-- Models Rust `str::to_lowercase` on the strings relevant here.
`Char.toLower` lower-cases the ASCII range; the only Unicode code points
whose Rust lowercase form is `c`, `s` or `v` are the ASCII upper-case
letters, so the comparison against `"csv"` agrees with the Rust one. -/
def to_lowercase (s : String) : String :=
  String.mk (s.data.map Char.toLower)

/-- `validate_csv_path` of file_ops.rs. The candidate path is abstracted
by its `extension()` (`ext`) and the outcome of `canonicalize()`
(`canonPath`, components of the canonical path, or the I/O error text);
the allowed base by the outcome of its canonicalization (`canonBase`).
`Path::starts_with` is component-wise prefix. -/
def validate_csv_path (ext : Option String)
    (canonPath : Except String (List String))
    (canonBase : Except String (List String)) :
    Except BackendError (List String) :=
  if ext.map to_lowercase ≠ some "csv" then
    .error (BackendError.new errors.file.INVALID_FORMAT "File must be a CSV (.csv) file")
  else
    match canonPath with
    | .error e =>
        .error ((BackendError.new errors.file.PERMISSION_DENIED
          "Failed to validate CSV file path").with_details
            ("Path canonicalization failed: " ++ e))
    | .ok canonical_path =>
        if MAX_PATH_DEPTH < canonical_path.length then
          .error (BackendError.new errors.file.PERMISSION_DENIED
            "CSV file path is too deep (possible path traversal attempt)")
        else
          match canonBase with
          | .error e =>
              .error ((BackendError.new errors.system.UNKNOWN_ERROR
                "Failed to determine allowed directory").with_details e)
          | .ok canonical_base =>
              if canonical_base.isPrefixOf canonical_path = false then
                .error (BackendError.new errors.file.PERMISSION_DENIED
                  "CSV file must be within the allowed directory")
              else
                .ok canonical_path

/-! ## file_ops.rs: config store (save_config / load_config)

JSON values as serde_json's `Value`; objects are association lists
(serde_json maps have unique keys, and only lookup/insert are used). -/

/-- serde_json `Value`. -/
inductive Json where
  | null : Json
  | bool (b : Bool) : Json
  | num (n : Int) : Json
  | str (s : String) : Json
  | arr (xs : List Json) : Json
  | obj (kvs : List (String × Json)) : Json

/-- Setting a key in an object's entry list: replace the first binding of
the key, or append a new one (models map insert). -/
def assocSet : List (String × Json) → String → Json → List (String × Json)
  | [], k, v => [(k, v)]
  | (k', v') :: rest, k, v =>
      if k' = k then (k, v) :: rest else (k', v') :: assocSet rest k v

/-- Lookup of a key in an object's entry list. -/
def assocGet : List (String × Json) → String → Option Json
  | [], _ => none
  | (k', v') :: rest, k => if k' = k then some v' else assocGet rest k

/-- serde_json index assignment `config[key] = value` (`IndexMut` for a
string index): on `Null` the value is replaced by a fresh object, on an
object the key is inserted; every other value panics (`none`). -/
def jsonIndexSet (j : Json) (key : String) (value : Json) : Option Json :=
  match j with
  | .null => some (.obj [(key, value)])
  | .obj kvs => some (.obj (assocSet kvs key value))
  | _ => none

/-- serde_json `config.get(key).unwrap_or(&Value::Null)`: key lookup on an
object, `Null` on everything else. -/
def jsonGet (j : Json) (key : String) : Json :=
  match j with
  | .obj kvs => (assocGet kvs key).getD .null
  | _ => .null

/-- Whether `jsonIndexSet` succeeds on this document (object or null). -/
def jsonIndexable (j : Json) : Bool :=
  match j with
  | .null => true
  | .obj _ => true
  | _ => false

/-- The config file's state: `none` = file absent; `some none` = file
present but its content is not valid JSON; `some (some j)` = file content
parses to `j`. -/
def ConfigFile : Type := Option (Option Json)

/-- Outcome of `save_config`: the new file state, or a Rust panic. -/
inductive SaveOutcome where
  | ok (newFile : ConfigFile) : SaveOutcome
  | crash : SaveOutcome

/-- `save_config` of file_ops.rs, as a transition on the config file's
state (directory creation and filesystem I/O errors are abstracted away;
the remaining logic is: read the existing document, treat any parse
failure as `json!({})`, run `config[key] = value`, write the document
back). `crash` models the panic of serde_json's index assignment on a
non-object, non-null document. -/
def save_config (file : ConfigFile) (key : String) (value : Json) : SaveOutcome :=
  let config : Json :=
    match file with
    | none => .obj []
    | some none => .obj []
    | some (some j) => j
  match jsonIndexSet config key value with
  | some config' => .ok (some (some config'))
  | none => .crash

/-- `load_config` of file_ops.rs: absent file yields `Null`; unparsable
content is an `INVALID_FILE_FORMAT` error; otherwise the value at the key
or `Null`. -/
def load_config (file : ConfigFile) (key : String) : Except BackendError Json :=
  match file with
  | none => .ok .null
  | some none =>
      .error (BackendError.new errors.file.INVALID_FORMAT "Invalid config file format")
  | some (some config) => .ok (jsonGet config key)

/-! ## file_ops.rs: detect_and_decode and UTF helpers -/

/-- Valid Unicode scalar value (below 0x110000 and not a surrogate). -/
def isValidScalar (n : Nat) : Bool :=
  n < 0x110000 && !(0xD800 ≤ n && n < 0xE000)

/-- Whether a byte is a UTF-8 continuation byte (0x80..0xBF). -/
def isCont (b : Nat) : Bool := 0x80 ≤ b && b < 0xC0

/-- Scalar value of a two-byte UTF-8 sequence. -/
def utf8Scalar2 (b b1 : Nat) : Nat := (b - 0xC0) * 0x40 + (b1 - 0x80)

/-- Scalar value of a three-byte UTF-8 sequence. -/
def utf8Scalar3 (b b1 b2 : Nat) : Nat :=
  (b - 0xE0) * 0x1000 + (b1 - 0x80) * 0x40 + (b2 - 0x80)

/-- Scalar value of a four-byte UTF-8 sequence. -/
def utf8Scalar4 (b b1 b2 b3 : Nat) : Nat :=
  (b - 0xF0) * 0x40000 + (b1 - 0x80) * 0x1000 + (b2 - 0x80) * 0x40 + (b3 - 0x80)

/-- Valid two-byte UTF-8 sequence: lead in 0xC2..0xDF (leads 0xC0/0xC1
would be overlong) and one continuation byte. -/
def utf8Valid2 (b b1 : Nat) : Bool := 0xC2 ≤ b && b < 0xE0 && isCont b1

/-- Valid three-byte UTF-8 sequence: lead in 0xE0..0xEF, two continuation
bytes, scalar at least 0x800 (no overlong form) and not a surrogate. -/
def utf8Valid3 (b b1 b2 : Nat) : Bool :=
  0xE0 ≤ b && b < 0xF0 && isCont b1 && isCont b2 &&
    (0x800 ≤ utf8Scalar3 b b1 b2 &&
      !(0xD800 ≤ utf8Scalar3 b b1 b2 && utf8Scalar3 b b1 b2 < 0xE000))

/-- Valid four-byte UTF-8 sequence: lead in 0xF0..0xF4, three continuation
bytes, scalar in 0x10000..0x10FFFF (no overlong form, within Unicode). -/
def utf8Valid4 (b b1 b2 b3 : Nat) : Bool :=
  0xF0 ≤ b && b < 0xF5 && isCont b1 && isCont b2 && isCont b3 &&
    (0x10000 ≤ utf8Scalar4 b b1 b2 b3 && utf8Scalar4 b b1 b2 b3 < 0x110000)

/-- UTF-8 decoding of a byte list to Unicode scalar values, `none` on any
invalid sequence (stray continuation bytes, truncated sequences, overlong
forms, surrogates and out-of-range values rejected); models the
validation done by `std::str::from_utf8`. Spelled with one pattern per
remaining length so that each equation is a plain conditional. -/
def decodeUtf8 : List Nat → Option (List Nat)
  | [] => some []
  | [b] => if b < 0x80 then some [b] else none
  | [b, b1] =>
    if b < 0x80 then Option.map (List.cons b) (decodeUtf8 [b1])
    else if utf8Valid2 b b1 then some [utf8Scalar2 b b1]
    else none
  | [b, b1, b2] =>
    if b < 0x80 then Option.map (List.cons b) (decodeUtf8 [b1, b2])
    else if utf8Valid2 b b1 then
      Option.map (List.cons (utf8Scalar2 b b1)) (decodeUtf8 [b2])
    else if utf8Valid3 b b1 b2 then some [utf8Scalar3 b b1 b2]
    else none
  | b :: b1 :: b2 :: b3 :: rest =>
    if b < 0x80 then Option.map (List.cons b) (decodeUtf8 (b1 :: b2 :: b3 :: rest))
    else if utf8Valid2 b b1 then
      Option.map (List.cons (utf8Scalar2 b b1)) (decodeUtf8 (b2 :: b3 :: rest))
    else if utf8Valid3 b b1 b2 then
      Option.map (List.cons (utf8Scalar3 b b1 b2)) (decodeUtf8 (b3 :: rest))
    else if utf8Valid4 b b1 b2 b3 then
      Option.map (List.cons (utf8Scalar4 b b1 b2 b3)) (decodeUtf8 rest)
    else none

/-- `chunks_exact(2)` combined with a two-byte-to-word function: pairs are
taken left to right, a trailing unpaired byte is discarded. -/
def chunkPairs (f : Nat → Nat → Nat) : List Nat → List Nat
  | b0 :: b1 :: rest => f b0 b1 :: chunkPairs f rest
  | _ => []

/-- `u16::from_le_bytes` over `chunks_exact(2)`. -/
def chunksLE (bytes : List Nat) : List Nat :=
  chunkPairs (fun b0 b1 => b0 + 256 * b1) bytes

/-- `u16::from_be_bytes` over `chunks_exact(2)`. -/
def chunksBE (bytes : List Nat) : List Nat :=
  chunkPairs (fun b0 b1 => 256 * b0 + b1) bytes

/-- `String::from_utf16` on a list of 16-bit code units: surrogate pairs
are combined, an unpaired (high or low) surrogate fails. -/
def decodeUtf16 : List Nat → Option (List Nat)
  | [] => some []
  | [u] => if u < 0xD800 || 0xDFFF < u then some [u] else none
  | u :: v :: rest =>
    if u < 0xD800 || 0xDFFF < u then
      Option.map (List.cons u) (decodeUtf16 (v :: rest))
    else if u ≤ 0xDBFF then
      if 0xDC00 ≤ v && v ≤ 0xDFFF then
        Option.map (List.cons (0x10000 + (u - 0xD800) * 0x400 + (v - 0xDC00)))
          (decodeUtf16 rest)
      else none
    else none

/-- `String::from_utf16le` (the `Utf16Decode` trait impl of file_ops.rs):
word extraction with `chunks_exact(2)` in little-endian order, then
`String::from_utf16`. -/
def from_utf16le (bytes : List Nat) : Option (List Nat) :=
  decodeUtf16 (chunksLE bytes)

/-- `String::from_utf16be` (the `Utf16Decode` trait impl of file_ops.rs). -/
def from_utf16be (bytes : List Nat) : Option (List Nat) :=
  decodeUtf16 (chunksBE bytes)

/-- The Windows-1252 fallback mapping of `detect_and_decode`, one byte at
a time: bytes 0x80..0x9F go to `0x20AC + (b - 0x80)` (`char::from_u32`,
`'?'` = 0x3F if that is no valid scalar), anything else to its own value
(`b as char`). -/
def win1252Byte (b : Nat) : Nat :=
  if 0x80 ≤ b && b ≤ 0x9F then
    if isValidScalar (0x20AC + (b - 0x80)) then 0x20AC + (b - 0x80) else 0x3F
  else b

/-- `detect_and_decode` of file_ops.rs: UTF-8 first; then, when at least
two bytes are present, the UTF-16 BOM branches (note the whole byte list,
BOM included, is handed to the UTF-16 decoder); otherwise the Windows-1252
fallback. -/
def detect_and_decode (bytes : List Nat) : Except BackendError (List Nat) :=
  match decodeUtf8 bytes with
  | some s => .ok s
  | none =>
    match bytes with
    | b0 :: b1 :: rest =>
        if b0 = 0xFF && b1 = 0xFE then
          match from_utf16le (b0 :: b1 :: rest) with
          | some s => .ok s
          | none =>
              .error (BackendError.new errors.file.ENCODING_ERROR
                "Invalid UTF-16LE encoding")
        else if b0 = 0xFE && b1 = 0xFF then
          match from_utf16be (b0 :: b1 :: rest) with
          | some s => .ok s
          | none =>
              .error (BackendError.new errors.file.ENCODING_ERROR
                "Invalid UTF-16BE encoding")
        else .ok ((b0 :: b1 :: rest).map win1252Byte)
    | short => .ok (short.map win1252Byte)

/-- Reference UTF-16 encoder (scalars to code units), used to state the
round-trip property: BMP scalars are one unit, the rest a surrogate pair. -/
def utf16Encode : List Nat → List Nat
  | [] => []
  | c :: cs =>
    if c < 0x10000 then c :: utf16Encode cs
    else (0xD800 + (c - 0x10000) / 0x400) ::
      (0xDC00 + (c - 0x10000) % 0x400) :: utf16Encode cs

/-- Reference little-endian serialization of 16-bit code units. -/
def wordsToBytesLE : List Nat → List Nat
  | [] => []
  | w :: ws => w % 256 :: w / 256 :: wordsToBytesLE ws

/-- Reference big-endian serialization of 16-bit code units. -/
def wordsToBytesBE : List Nat → List Nat
  | [] => []
  | w :: ws => w / 256 :: w % 256 :: wordsToBytesBE ws

/-! ## file_ops.rs: parse_csv -/

/-- Rust `char::is_whitespace` (the Unicode `White_Space` property). -/
def rustIsWhitespace (c : Char) : Bool :=
  let n := c.toNat
  (0x09 ≤ n && n ≤ 0x0D) || n = 0x20 || n = 0x85 || n = 0xA0 || n = 0x1680 ||
    (0x2000 ≤ n && n ≤ 0x200A) || n = 0x2028 || n = 0x2029 || n = 0x202F ||
    n = 0x205F || n = 0x3000

/-- Rust `str::trim`: drop `White_Space` characters from both ends. -/
def rustTrim (l : List Char) : List Char :=
  (l.dropWhile rustIsWhitespace).rdropWhile rustIsWhitespace

/-- Rust `str::split(sep)` on a character list: the pieces between
occurrences of `sep` (never empty as a list of pieces; pieces may be
empty). -/
def splitOnChar (sep : Char) : List Char → List (List Char)
  | [] => [[]]
  | c :: cs =>
    if c = sep then [] :: splitOnChar sep cs
    else
      match splitOnChar sep cs with
      | [] => [[c]]
      | piece :: rest => (c :: piece) :: rest

/-- Strip one carriage return from the end of an accumulated (reversed)
line: models `str::lines` removing the `\r` of a `\r\n` terminator. -/
def finishLine (acc : List Char) : List Char :=
  (match acc with
   | '\r' :: r => r
   | r => r).reverse

/-- Worker for `str::lines`: `acc` is the current line, reversed. A line
is emitted at each `\n` (with a preceding `\r` stripped); the final
fragment is emitted only if nonempty (no trailing empty line). -/
def rustLinesAux : List Char → List Char → List (List Char)
  | acc, [] => if acc.isEmpty then [] else [acc.reverse]
  | acc, c :: cs =>
    if c = '\n' then finishLine acc :: rustLinesAux [] cs
    else rustLinesAux (c :: acc) cs

/-- Rust `str::lines`. -/
def rustLines (s : List Char) : List (List Char) :=
  rustLinesAux [] s

/-- `parse_csv` of file_ops.rs: split into lines, split each line on `,`,
trim each field; error if no line was produced. -/
def parse_csv (content : List Char) :
    Except BackendError (List (List (List Char))) :=
  let records := (rustLines content).map
    (fun line => (splitOnChar ',' line).map rustTrim)
  if records.isEmpty then
    .error (BackendError.new errors.file.INVALID_FORMAT "CSV file is empty or invalid")
  else .ok records

/-! ## window.rs / commands.rs -/

/-- `WindowPosition` of window.rs (`x`,`y` are `i32`; `width`,`height`
are `u32`; no operation here can overflow either type). -/
structure WindowPosition where
  x : Int
  y : Int
  width : Nat
  height : Nat
deriving DecidableEq, Repr

/-- `constrain_to_screen` of window.rs: floor x and y at 0, width at 400,
height at 300. -/
def constrain_to_screen (position : WindowPosition) : WindowPosition :=
  { position with
    x := max position.x 0
    y := max position.y 0
    width := max position.width 400
    height := max position.height 300 }

/-- The observable effect of window.rs `set_window_position`: the
geometry handed to the window (`set_position` then `set_size`). -/
structure WindowState where
  geometry : Option WindowPosition
deriving DecidableEq, Repr

/-- window.rs `set_window_position`: applies the given geometry to the
window (Tauri errors abstracted away). -/
def window_set_window_position (w : WindowState) (position : WindowPosition) :
    WindowState :=
  { w with geometry := some position }

/-- The `set_window_position` command of commands.rs: clamp with
`constrain_to_screen`, then apply. -/
def commands_set_window_position (w : WindowState) (position : WindowPosition) :
    WindowState :=
  window_set_window_position w (constrain_to_screen position)

/-! ## permissions.rs -/

/-- `PermissionStatus` of permissions.rs. -/
structure PermissionStatus where
  granted : Bool
  available : Bool
  message : String
  details : Option String
deriving DecidableEq, Repr

/-- Captured outcome of one `std::process::Command::output()` call:
`status.success()` and the (lossily decoded) stdout text. -/
structure CmdOut where
  success : Bool
  stdout : String
deriving DecidableEq, Repr

/-- Digit-string accumulator for `str::parse::<usize>`. -/
def parseDigitsAux : List Char → Nat → Option Nat
  | [], acc => some acc
  | c :: cs, acc =>
      if c.isDigit then parseDigitsAux cs (acc * 10 + (c.toNat - 48)) else none

/-- `str::parse::<usize>()`: optional leading `+`, then decimal digits
(overflow ignored: the probe outputs are tiny line counts). -/
def rustParseUsize (s : String) : Option Nat :=
  match s.data with
  | [] => none
  | '+' :: rest => if rest.isEmpty then none else parseDigitsAux rest 0
  | l => parseDigitsAux l 0

/-- Rust `str::trim` on a `String`. -/
def rustTrimString (s : String) : String :=
  String.mk (rustTrim s.data)

/-- `check_macos_microphone_permission` of permissions.rs, as a function
of the outcomes of its two subprocess invocations (the device-count
command; the consent-record command, only consulted when the first
command ran and exited successfully). -/
def check_macos_microphone_permission (devCmd consentCmd : Except String CmdOut) :
    Except String (Bool × Bool) :=
  match devCmd with
  | .error e => .error ("Failed to check audio devices: " ++ e)
  | .ok output =>
    if output.success then
      let device_count := (rustParseUsize (rustTrimString output.stdout)).getD 0
      match consentCmd with
      | .error e => .error ("Failed to check permission: " ++ e)
      | .ok permission_output =>
        let permission_count :=
          (rustParseUsize (rustTrimString permission_output.stdout)).getD 0
        .ok (decide (0 < device_count), decide (0 < permission_count))
    else .ok (true, false)

/-- `request_microphone_permission_macos` of permissions.rs. -/
def request_microphone_permission_macos (devCmd consentCmd : Except String CmdOut) :
    Except BackendError PermissionStatus :=
  match check_macos_microphone_permission devCmd consentCmd with
  | .ok (available, granted) =>
      .ok ⟨granted, available,
        if available then
          if granted then "Microphone available and permission granted"
          else "Microphone available but permission denied"
        else "No microphone devices detected", none⟩
  | .error e =>
      .ok ⟨false, false, "Could not determine microphone status", some e⟩

/-- `request_microphone_permission_windows` of permissions.rs, as a
function of the outcome of `check_windows_audio_devices` (a pair
`(available, granted)` or an error string). -/
def request_microphone_permission_windows (check : Except String (Bool × Bool)) :
    Except BackendError PermissionStatus :=
  match check with
  | .ok (available, granted) =>
      .ok ⟨granted, available,
        if available then
          if granted then "Microphone available and permission granted"
          else "Microphone available (permission status unknown)"
        else "No microphone devices detected", none⟩
  | .error e =>
      .ok ⟨false, false, "Could not determine microphone status", some e⟩

/-- Whether `pat` starts the character list `s`. -/
def startsWithSeq : List Char → List Char → Bool
  | [], _ => true
  | _ :: _, [] => false
  | p :: ps, c :: cs => p = c && startsWithSeq ps cs

/-- Rust `str::contains` with a string pattern: `pat` occurs as a
contiguous substring of `s`. -/
def containsSeq (s pat : List Char) : Bool :=
  match s with
  | [] => pat.isEmpty
  | _ :: cs => startsWithSeq pat s || containsSeq cs pat

/-- `check_linux_audio_devices` of permissions.rs: the wpctl, arecord and
pactl probes in order; each parameter is `output().ok()` of one command.
A tool that ran and exited successfully decides the result; otherwise the
chain falls through, ending in `unwrap_or(false)`. The `Result` error arm
is never produced. -/
def check_linux_audio_devices (pw alsa pulse : Option CmdOut) :
    Except String Bool :=
  let pwRes := pw.bind fun output =>
    if output.success then
      some (containsSeq output.stdout.data "Microphone".data ||
        containsSeq output.stdout.data "Audio/Source".data)
    else none
  match pwRes with
  | some found => .ok found
  | none =>
    let alsaRes := alsa.bind fun output =>
      if output.success then some (!output.stdout.isEmpty) else none
    match alsaRes with
    | some found => .ok found
    | none =>
      let pulseRes := pulse.bind fun output =>
        if output.success then some (!output.stdout.isEmpty) else none
      .ok (pulseRes.getD false)

/-- `request_microphone_permission_linux` of permissions.rs (on Linux
`granted` is set to `available`). -/
def request_microphone_permission_linux (check : Except String Bool) :
    Except BackendError PermissionStatus :=
  match check with
  | .ok available =>
      .ok ⟨available, available,
        if available then "Microphone available"
        else "No microphone devices detected", none⟩
  | .error e =>
      .ok ⟨false, false, "Could not determine microphone status", some e⟩

/-- The compile-time platform selection of permissions.rs. -/
inductive Platform where
  | windows
  | macos
  | linux
  | unsupported
deriving DecidableEq, Repr

/-- The outcomes of every OS interaction `request_microphone_permission`
can perform, one field per underlying check. -/
structure OsProbe where
  winCheck : Except String (Bool × Bool)
  macDev : Except String CmdOut
  macConsent : Except String CmdOut
  linuxCheck : Except String Bool

/-- `request_microphone_permission` of permissions.rs: one platform
branch, or the unsupported-platform fallback
(`granted=true, available=false`). -/
def request_microphone_permission (p : Platform) (env : OsProbe) :
    Except BackendError PermissionStatus :=
  match p with
  | .windows => request_microphone_permission_windows env.winCheck
  | .macos => request_microphone_permission_macos env.macDev env.macConsent
  | .linux => request_microphone_permission_linux env.linuxCheck
  | .unsupported =>
      .ok ⟨true, false, "Microphone permissions not supported on this platform", none⟩

/-! # Theorems

Helper lemmas first, then one theorem per claim. -/

theorem assocGet_assocSet_self (kvs : List (String × Json)) (k : String) (v : Json) :
    assocGet (assocSet kvs k v) k = some v := by
  induction kvs with
  | nil => simp [assocSet, assocGet]
  | cons hd tl ih =>
      obtain ⟨k', v'⟩ := hd
      by_cases h : k' = k
      · simp [assocSet, h, assocGet]
      · simp [assocSet, h, assocGet, ih]

theorem assocGet_assocSet_ne (kvs : List (String × Json)) (k1 k2 : String) (v : Json)
    (h : k1 ≠ k2) : assocGet (assocSet kvs k2 v) k1 = assocGet kvs k1 := by
  induction kvs with
  | nil =>
      simp only [assocSet, assocGet]
      rw [if_neg fun hh => h hh.symm]
  | cons hd tl ih =>
      obtain ⟨k', v'⟩ := hd
      by_cases h2 : k' = k2
      · subst h2
        simp only [assocSet, if_pos rfl, assocGet]
        rw [if_neg fun hh => h hh.symm, if_neg fun hh => h hh.symm]
      · simp only [assocSet, if_neg h2, assocGet]
        by_cases h1 : k' = k1
        · rw [if_pos h1, if_pos h1]
        · rw [if_neg h1, if_neg h1, ih]

theorem save_config_ok_shape (file : ConfigFile) (k : String) (v : Json)
    (file' : ConfigFile) (h : save_config file k v = .ok file') :
    ∃ L, file' = some (some (.obj (assocSet L k v))) := by
  cases file with
  | none =>
      refine ⟨[], ?_⟩
      rw [show save_config none k v =
        .ok (some (some (.obj (assocSet [] k v)))) from rfl] at h
      injection h with h
      exact h.symm
  | some o =>
      cases o with
      | none =>
          refine ⟨[], ?_⟩
          rw [show save_config (some none) k v =
            .ok (some (some (.obj (assocSet [] k v)))) from rfl] at h
          injection h with h
          exact h.symm
      | some j =>
          cases j with
          | null =>
              refine ⟨[], ?_⟩
              rw [show save_config (some (some Json.null)) k v =
                .ok (some (some (.obj (assocSet [] k v)))) from rfl] at h
              injection h with h
              exact h.symm
          | obj kvs =>
              refine ⟨kvs, ?_⟩
              rw [show save_config (some (some (Json.obj kvs))) k v =
                .ok (some (some (.obj (assocSet kvs k v)))) from rfl] at h
              injection h with h
              exact h.symm
          | bool b => exact absurd h (by simp [save_config, jsonIndexSet])
          | num n => exact absurd h (by simp [save_config, jsonIndexSet])
          | str s => exact absurd h (by simp [save_config, jsonIndexSet])
          | arr xs => exact absurd h (by simp [save_config, jsonIndexSet])

/-- C2: `save_config k v` then `load_config k` returns `v`; a second save
to a distinct key preserves the first key's value (read-modify-write keeps
sibling keys); `load_config` on a missing file or an unset key returns
`Null`, not an error. -/
theorem config_save_load_spec :
    (∀ (file : ConfigFile) (k : String) (v : Json) (file' : ConfigFile),
        save_config file k v = .ok file' → load_config file' k = .ok v) ∧
    (∀ (file : ConfigFile) (k1 k2 : String) (v1 v2 : Json)
        (file1 file2 : ConfigFile), k1 ≠ k2 →
        save_config file k1 v1 = .ok file1 →
        save_config file1 k2 v2 = .ok file2 →
        load_config file2 k1 = .ok v1) ∧
    (∀ k : String, load_config none k = .ok .null) ∧
    (∀ (kvs : List (String × Json)) (k : String), assocGet kvs k = none →
        load_config (some (some (.obj kvs))) k = .ok .null) := by
  refine ⟨?_, ?_, ?_, ?_⟩
  · intro file k v file' h
    obtain ⟨L, rfl⟩ := save_config_ok_shape file k v file' h
    simp [load_config, jsonGet, assocGet_assocSet_self]
  · intro file k1 k2 v1 v2 file1 file2 hne h1 h2
    obtain ⟨L1, rfl⟩ := save_config_ok_shape file k1 v1 file1 h1
    rw [show save_config (some (some (Json.obj (assocSet L1 k1 v1)))) k2 v2 =
      .ok (some (some (.obj (assocSet (assocSet L1 k1 v1) k2 v2)))) from rfl] at h2
    injection h2 with h2
    rw [← h2]
    simp [load_config, jsonGet, assocGet_assocSet_ne _ _ _ _ hne,
      assocGet_assocSet_self]
  · intro k; rfl
  · intro kvs k h
    simp [load_config, jsonGet, h]

/-- C9 (amended): `save_config` panics exactly when the existing config
file holds valid JSON that is neither an object nor `null`; on an absent
or unparsable file, an object, or a `null` document it completes (the
serde_json index assignment turns `null` into a fresh object rather than
panicking). -/
theorem save_config_crash_iff :
    ∀ (file : ConfigFile) (k : String) (v : Json),
      save_config file k v = SaveOutcome.crash ↔
        ∃ j, file = some (some j) ∧ jsonIndexable j = false := by
  intro file k v
  constructor
  · intro h
    cases file with
    | none => exact absurd h (by simp [save_config, jsonIndexSet])
    | some o =>
        cases o with
        | none => exact absurd h (by simp [save_config, jsonIndexSet])
        | some j =>
            refine ⟨j, rfl, ?_⟩
            cases j with
            | null => exact absurd h (by simp [save_config, jsonIndexSet])
            | obj kvs => exact absurd h (by simp [save_config, jsonIndexSet])
            | bool b => rfl
            | num n => rfl
            | str s => rfl
            | arr xs => rfl
  · rintro ⟨j, rfl, hj⟩
    cases j with
    | null => simp [jsonIndexable] at hj
    | obj kvs => simp [jsonIndexable] at hj
    | bool b => rfl
    | num n => rfl
    | str s => rfl
    | arr xs => rfl

/-- C9 counterexample: a config file holding the valid, non-object JSON
document `null` does not make `save_config` panic — the index assignment
replaces `null` with a fresh object and the save succeeds. -/
theorem save_config_null_document_no_crash :
    save_config (some (some Json.null)) "theme" (Json.str "Energy") =
      SaveOutcome.ok (some (some (Json.obj [("theme", Json.str "Energy")]))) ∧
    save_config (some (some Json.null)) "theme" (Json.str "Energy") ≠
      SaveOutcome.crash := by
  refine ⟨rfl, ?_⟩
  intro h
  rw [show save_config (some (some Json.null)) "theme" (Json.str "Energy") =
    SaveOutcome.ok (some (some (Json.obj [("theme", Json.str "Energy")]))) from rfl] at h
  exact SaveOutcome.noConfusion h

/-- C5: `constrain_to_screen` forces `x ≥ 0`, `y ≥ 0`, `width ≥ 400`,
`height ≥ 300`, is idempotent, maps `(-100, -50, 200, 150)` to
`(0, 0, 400, 300)`, and the `set_window_position` command applies exactly
the clamped geometry to the window. -/
theorem constrain_to_screen_spec :
    (∀ p : WindowPosition, 0 ≤ (constrain_to_screen p).x ∧
        0 ≤ (constrain_to_screen p).y ∧
        400 ≤ (constrain_to_screen p).width ∧
        300 ≤ (constrain_to_screen p).height) ∧
    (∀ p : WindowPosition,
        constrain_to_screen (constrain_to_screen p) = constrain_to_screen p) ∧
    constrain_to_screen ⟨-100, -50, 200, 150⟩ = ⟨0, 0, 400, 300⟩ ∧
    (∀ (w : WindowState) (p : WindowPosition), commands_set_window_position w p =
        window_set_window_position w (constrain_to_screen p)) ∧
    (commands_set_window_position ⟨none⟩ ⟨-100, -50, 200, 150⟩).geometry =
      some ⟨0, 0, 400, 300⟩ := by
  refine ⟨?_, ?_, by decide, ?_, by decide⟩
  · intro p
    exact ⟨le_max_right _ _, le_max_right _ _, le_max_right _ _, le_max_right _ _⟩
  · intro p
    simp [constrain_to_screen, max_assoc]
  · intro w p
    rfl

/-- C4: `request_microphone_permission` returns `Ok` with a
`PermissionStatus` for every platform branch and every outcome of the
underlying OS checks (including check failures and the
unsupported-platform fallback), and every check-failure path yields
`granted = false`. -/
theorem request_microphone_permission_total :
    (∀ (p : Platform) (env : OsProbe),
        ∃ s, request_microphone_permission p env = .ok s) ∧
    (∀ e : String, request_microphone_permission_windows (.error e) =
        .ok ⟨false, false, "Could not determine microphone status", some e⟩) ∧
    (∀ (dev cons : Except String CmdOut) (e : String),
        check_macos_microphone_permission dev cons = .error e →
        request_microphone_permission_macos dev cons =
          .ok ⟨false, false, "Could not determine microphone status", some e⟩) ∧
    (∀ e : String, request_microphone_permission_linux (.error e) =
        .ok ⟨false, false, "Could not determine microphone status", some e⟩) ∧
    (∀ env : OsProbe, request_microphone_permission .unsupported env =
        .ok ⟨true, false, "Microphone permissions not supported on this platform",
          none⟩) := by
  refine ⟨?_, fun e => rfl, ?_, fun e => rfl, fun env => rfl⟩
  · intro p env
    cases p with
    | windows =>
        rcases h : env.winCheck with e | ⟨a, g⟩ <;>
          simp [request_microphone_permission,
            request_microphone_permission_windows, h]
    | macos =>
        rcases h : check_macos_microphone_permission env.macDev env.macConsent with
          e | ⟨a, g⟩ <;>
          simp [request_microphone_permission,
            request_microphone_permission_macos, h]
    | linux =>
        rcases h : env.linuxCheck with e | a <;>
          simp [request_microphone_permission,
            request_microphone_permission_linux, h]
    | unsupported => exact ⟨_, rfl⟩
  · intro dev cons e h
    simp [request_microphone_permission_macos, h]

/-- C7: in the macOS strategy, a failed device-probe invocation collapses
`available` to `false` and a failed consent-probe invocation collapses
`granted` to `false`; neither failure escapes as a hard error. -/
theorem macos_checks_best_effort :
    (∀ (e : String) (cons : Except String CmdOut),
        ∃ s, request_microphone_permission_macos (.error e) cons = .ok s ∧
          s.available = false ∧ s.granted = false) ∧
    (∀ (dev : Except String CmdOut) (e : String),
        ∃ s, request_microphone_permission_macos dev (.error e) = .ok s ∧
          s.granted = false) := by
  constructor
  · intro e cons
    exact ⟨_, rfl, rfl, rfl⟩
  · intro dev e
    rcases dev with e' | o
    · exact ⟨_, rfl, rfl⟩
    · by_cases h : o.success = true
      · have hc : check_macos_microphone_permission (.ok o) (.error e) =
            .error ("Failed to check permission: " ++ e) := by
          simp [check_macos_microphone_permission, h]
        exact ⟨⟨false, false, "Could not determine microphone status",
          some ("Failed to check permission: " ++ e)⟩, by
            simp [request_microphone_permission_macos, hc], rfl⟩
      · have hc : check_macos_microphone_permission (.ok o) (.error e) =
            .ok (true, false) := by
          simp [check_macos_microphone_permission, h]
        exact ⟨⟨false, true, "Microphone available but permission denied", none⟩, by
          simp [request_microphone_permission_macos, hc], rfl⟩

/-- C1: `validate_csv_path` accepts only candidates whose canonical path
is prefixed by the canonical root; a non-`.csv` extension (compared
case-insensitively, so `.CSV` passes) is always rejected with
`INVALID_FILE_FORMAT`; a canonical path outside the root is always
rejected; a `.csv` candidate whose canonical path lies under the root
(and within the 10-component depth ceiling) is accepted; a canonical
path of more than 10 components is always rejected. -/
theorem validate_csv_path_spec :
    (∀ (ext : Option String) (cp cb : Except String (List String))
        (r : List String), validate_csv_path ext cp cb = .ok r →
        ∃ base, cb = .ok base ∧ base.isPrefixOf r = true ∧ cp = .ok r) ∧
    (∀ (ext : Option String) (cp cb : Except String (List String)),
        ext.map to_lowercase ≠ some "csv" →
        ∃ e, validate_csv_path ext cp cb = .error e ∧
          e.code = errors.file.INVALID_FORMAT) ∧
    (∀ (ext : Option String) (c b : List String), b.isPrefixOf c = false →
        ∃ e, validate_csv_path ext (.ok c) (.ok b) = .error e) ∧
    (∀ c b : List String, b.isPrefixOf c = true → c.length ≤ MAX_PATH_DEPTH →
        validate_csv_path (some "csv") (.ok c) (.ok b) = .ok c ∧
        validate_csv_path (some "CSV") (.ok c) (.ok b) = .ok c) ∧
    (∀ (c : List String) (cb : Except String (List String)),
        MAX_PATH_DEPTH < c.length →
        ∃ e, validate_csv_path (some "csv") (.ok c) cb = .error e ∧
          e.code = errors.file.PERMISSION_DENIED) := by
  refine ⟨?_, ?_, ?_, ?_, ?_⟩
  · intro ext cp cb r h
    rcases cp with ec | c
    · simp only [validate_csv_path] at h
      split at h
      · exact absurd h (by simp)
      · exact absurd h (by simp)
    · rcases cb with eb | b
      · simp only [validate_csv_path] at h
        split at h
        · exact absurd h (by simp)
        · split at h
          · exact absurd h (by simp)
          · exact absurd h (by simp)
      · simp only [validate_csv_path] at h
        split at h
        · exact absurd h (by simp)
        · split at h
          · exact absurd h (by simp)
          · split at h
            · exact absurd h (by simp)
            · rename_i hpre
              have hcr : c = r := by simpa using h
              subst hcr
              exact ⟨b, rfl, by simpa using hpre, rfl⟩
  · intro ext cp cb hext
    unfold validate_csv_path
    rw [if_pos hext]
    exact ⟨_, rfl, rfl⟩
  · intro ext c b hpre
    by_cases hext : ext.map to_lowercase = some "csv"
    · by_cases hd : MAX_PATH_DEPTH < c.length
      · refine ⟨BackendError.new errors.file.PERMISSION_DENIED
          "CSV file path is too deep (possible path traversal attempt)", ?_⟩
        simp [validate_csv_path, hext, hd]
      · refine ⟨BackendError.new errors.file.PERMISSION_DENIED
          "CSV file must be within the allowed directory", ?_⟩
        simp [validate_csv_path, hext, hd, hpre]
    · refine ⟨BackendError.new errors.file.INVALID_FORMAT
        "File must be a CSV (.csv) file", ?_⟩
      simp [validate_csv_path, hext]
  · intro c b hpre hdep
    have hlow : to_lowercase "csv" = "csv" := by decide
    have hLOW : to_lowercase "CSV" = "csv" := by decide
    constructor <;>
      simp [validate_csv_path, hlow, hLOW, Nat.not_lt.mpr hdep, hpre]
  · intro c cb hdep
    have hlow : to_lowercase "csv" = "csv" := by decide
    refine ⟨BackendError.new errors.file.PERMISSION_DENIED
      "CSV file path is too deep (possible path traversal attempt)", ?_, rfl⟩
    simp [validate_csv_path, hlow, hdep]

theorem head?_dropWhile (p : Char → Bool) (l : List Char) :
    ∀ a, (l.dropWhile p).head? = some a → p a = false := by
  induction l with
  | nil => simp
  | cons b t ih =>
      intro a ha
      by_cases hb : p b = true
      · rw [List.dropWhile_cons, if_pos hb] at ha
        exact ih a ha
      · rw [List.dropWhile_cons, if_neg hb] at ha
        simp only [List.head?_cons, Option.some.injEq] at ha
        subst ha
        simpa using hb

theorem rustTrim_idem (l : List Char) : rustTrim (rustTrim l) = rustTrim l := by
  unfold rustTrim
  have hA : (((l.dropWhile rustIsWhitespace).rdropWhile
      rustIsWhitespace).dropWhile rustIsWhitespace) =
      (l.dropWhile rustIsWhitespace).rdropWhile rustIsWhitespace := by
    cases hr : (l.dropWhile rustIsWhitespace).rdropWhile rustIsWhitespace with
    | nil => simp
    | cons a t =>
        have hpre := List.rdropWhile_prefix rustIsWhitespace
          (l.dropWhile rustIsWhitespace)
        rw [hr] at hpre
        obtain ⟨tail, htail⟩ := hpre
        have hma : (l.dropWhile rustIsWhitespace).head? = some a := by
          rw [← htail]
          rfl
        have h0 : rustIsWhitespace a = false := head?_dropWhile _ l a hma
        rw [List.dropWhile_cons, if_neg (by simp [h0])]
  rw [hA]
  exact List.rdropWhile_idempotent _ _

theorem mem_rustTrim {a : Char} {l : List Char} (h : a ∈ rustTrim l) : a ∈ l := by
  unfold rustTrim at h
  have h1 : a ∈ l.dropWhile rustIsWhitespace :=
    (List.rdropWhile_prefix _ _).sublist.subset h
  exact (List.dropWhile_sublist _).subset h1

theorem splitOnChar_ne_nil (sep : Char) (l : List Char) : splitOnChar sep l ≠ [] := by
  cases l with
  | nil => simp [splitOnChar]
  | cons c cs =>
      by_cases h : c = sep
      · simp [splitOnChar, h]
      · simp only [splitOnChar, if_neg h]
        cases hs : splitOnChar sep cs <;> simp

theorem not_mem_splitOnChar (sep : Char) :
    ∀ l piece : List Char, piece ∈ splitOnChar sep l → sep ∉ piece := by
  intro l
  induction l with
  | nil =>
      intro piece h
      simp only [splitOnChar, List.mem_singleton] at h
      subst h
      simp
  | cons c cs ih =>
      intro piece h
      by_cases hc : c = sep
      · simp only [splitOnChar, if_pos hc] at h
        rcases List.mem_cons.mp h with h1 | h2
        · subst h1; simp
        · exact ih piece h2
      · simp only [splitOnChar, if_neg hc] at h
        cases hs : splitOnChar sep cs with
        | nil => exact absurd hs (splitOnChar_ne_nil sep cs)
        | cons p rest =>
            rw [hs] at h
            rcases List.mem_cons.mp h with h1 | h2
            · subst h1
              intro hmem
              rcases List.mem_cons.mp hmem with h3 | h4
              · exact hc h3.symm
              · exact ih p (by rw [hs]; exact List.mem_cons_self p rest) h4
            · exact ih piece (by rw [hs]; exact List.mem_cons_of_mem p h2)

theorem rustLinesAux_ne_nil :
    ∀ cs acc : List Char, acc ≠ [] ∨ cs ≠ [] → rustLinesAux acc cs ≠ [] := by
  intro cs
  induction cs with
  | nil =>
      intro acc h
      rcases h with h | h
      · simp [rustLinesAux, h]
      · exact absurd rfl h
  | cons c cs ih =>
      intro acc _
      by_cases hc : c = '\n'
      · simp [rustLinesAux, hc]
      · simp only [rustLinesAux, if_neg hc]
        exact ih (c :: acc) (Or.inl (by simp))

/-- C6: `parse_csv` fails (with `INVALID_FILE_FORMAT`) exactly on empty
input; every successful parse has at least one row, every field equals
its own trim, and no field contains the comma separator. -/
theorem parse_csv_spec :
    (∃ e, parse_csv [] = .error e ∧ e.code = errors.file.INVALID_FORMAT) ∧
    (∀ s : List Char, (∃ e, parse_csv s = .error e) ↔ s = []) ∧
    (∀ (s : List Char) (recs : List (List (List Char))),
        parse_csv s = .ok recs → 1 ≤ recs.length ∧
        ∀ row ∈ recs, ∀ f ∈ row, rustTrim f = f ∧ ',' ∉ f) := by
  have hok : ∀ s : List Char, s ≠ [] → ∃ recs, parse_csv s = .ok recs := by
    intro s hs
    have h1 : rustLines s ≠ [] := rustLinesAux_ne_nil s [] (Or.inr hs)
    simp only [parse_csv]
    rw [if_neg (by simp [rustLines] at h1 ⊢; exact h1)]
    exact ⟨_, rfl⟩
  refine ⟨⟨_, rfl, rfl⟩, ?_, ?_⟩
  · intro s
    constructor
    · rintro ⟨e, he⟩
      by_contra hs
      obtain ⟨recs, hrecs⟩ := hok s hs
      rw [hrecs] at he
      exact Except.noConfusion he
    · rintro rfl
      exact ⟨_, rfl⟩
  · intro s recs h
    simp only [parse_csv] at h
    split at h
    · exact absurd h (by simp)
    · rename_i hne
      injection h with h
      subst h
      constructor
      · have hbase : rustLines s ≠ [] := by
          intro h0
          exact hne (by simp [h0])
        have hlen : 0 < (rustLines s).length := List.length_pos.mpr hbase
        simpa using hlen
      · intro row hrow f hf
        obtain ⟨line, hline, rfl⟩ := List.mem_map.mp hrow
        obtain ⟨piece, hpiece, rfl⟩ := List.mem_map.mp hf
        refine ⟨rustTrim_idem piece, ?_⟩
        intro hmem
        exact not_mem_splitOnChar ',' line piece hpiece (mem_rustTrim hmem)

theorem decodeUtf8_ff (l : List Nat) : decodeUtf8 (0xFF :: l) = none := by
  rcases l with _ | ⟨b1, _ | ⟨b2, _ | ⟨b3, r⟩⟩⟩ <;>
    simp [decodeUtf8, utf8Valid2, utf8Valid3, utf8Valid4]

theorem decodeUtf8_fe (l : List Nat) : decodeUtf8 (0xFE :: l) = none := by
  rcases l with _ | ⟨b1, _ | ⟨b2, _ | ⟨b3, r⟩⟩⟩ <;>
    simp [decodeUtf8, utf8Valid2, utf8Valid3, utf8Valid4]

theorem decodeUtf16_bmp_cons (u : Nat) (ws : List Nat)
    (h : u < 0xD800 ∨ 0xDFFF < u) :
    decodeUtf16 (u :: ws) = Option.map (List.cons u) (decodeUtf16 ws) := by
  have hb : (decide (u < 0xD800) || decide (0xDFFF < u)) = true := by
    rcases h with h | h <;> simp [h]
  cases ws with
  | nil => simp only [decodeUtf16, if_pos hb]; rfl
  | cons v rest => rw [decodeUtf16, if_pos hb]

theorem utf16Encode_lt (t : List Nat) (h : ∀ c ∈ t, isValidScalar c = true) :
    ∀ w ∈ utf16Encode t, w < 0x10000 := by
  induction t with
  | nil => simp [utf16Encode]
  | cons c cs ih =>
      have hc : c < 0x110000 ∧ (c < 0xD800 ∨ 0xE000 ≤ c) := by
        have := h c (List.mem_cons_self c cs)
        simpa [isValidScalar] using this
      have ihs := ih fun x hx => h x (List.mem_cons_of_mem c hx)
      intro w hw
      by_cases h1 : c < 0x10000
      · simp only [utf16Encode, if_pos h1, List.mem_cons] at hw
        rcases hw with rfl | hw
        · exact h1
        · exact ihs w hw
      · simp only [utf16Encode, if_neg h1, List.mem_cons] at hw
        rcases hw with rfl | hw | hw
        · omega
        · omega
        · exact ihs w hw

theorem chunksLE_wordsToBytesLE (ws : List Nat) (h : ∀ w ∈ ws, w < 0x10000) :
    chunksLE (wordsToBytesLE ws) = ws := by
  induction ws with
  | nil => rfl
  | cons w ws ih =>
      have hw : w < 0x10000 := h w (List.mem_cons_self w ws)
      have ihs := ih fun x hx => h x (List.mem_cons_of_mem w hx)
      show chunkPairs _ (w % 256 :: w / 256 :: wordsToBytesLE ws) = w :: ws
      rw [chunkPairs]
      rw [show chunkPairs (fun b0 b1 => b0 + 256 * b1) (wordsToBytesLE ws) =
        chunksLE (wordsToBytesLE ws) from rfl, ihs]
      congr 1
      omega

theorem chunksBE_wordsToBytesBE (ws : List Nat) (h : ∀ w ∈ ws, w < 0x10000) :
    chunksBE (wordsToBytesBE ws) = ws := by
  induction ws with
  | nil => rfl
  | cons w ws ih =>
      have hw : w < 0x10000 := h w (List.mem_cons_self w ws)
      have ihs := ih fun x hx => h x (List.mem_cons_of_mem w hx)
      show chunkPairs _ (w / 256 :: w % 256 :: wordsToBytesBE ws) = w :: ws
      rw [chunkPairs]
      rw [show chunkPairs (fun b0 b1 => 256 * b0 + b1) (wordsToBytesBE ws) =
        chunksBE (wordsToBytesBE ws) from rfl, ihs]
      congr 1
      omega

theorem decodeUtf16_utf16Encode (t : List Nat)
    (h : ∀ c ∈ t, isValidScalar c = true) :
    decodeUtf16 (utf16Encode t) = some t := by
  induction t with
  | nil => rfl
  | cons c cs ih =>
      have hc : c < 0x110000 ∧ (c < 0xD800 ∨ 0xE000 ≤ c) := by
        have := h c (List.mem_cons_self c cs)
        simpa [isValidScalar] using this
      have ihs := ih fun x hx => h x (List.mem_cons_of_mem c hx)
      obtain ⟨hc1, hc2⟩ := hc
      by_cases h1 : c < 0x10000
      · simp only [utf16Encode, if_pos h1]
        rw [decodeUtf16_bmp_cons c _ (by omega), ihs]
        rfl
      · simp only [utf16Encode, if_neg h1]
        rw [decodeUtf16, if_neg (by simp; omega), if_pos (by omega),
          if_pos (by simp; omega)]
        rw [ihs]
        have he : 0x10000 + (0xD800 + (c - 0x10000) / 0x400 - 0xD800) * 0x400 +
            (0xDC00 + (c - 0x10000) % 0x400 - 0xDC00) = c := by omega
        rw [he]
        rfl

theorem detect_and_decode_bom_le (rest : List Nat) :
    detect_and_decode (0xFF :: 0xFE :: rest) =
      match decodeUtf16 (0xFEFF :: chunksLE rest) with
      | some s => .ok s
      | none => .error (BackendError.new errors.file.ENCODING_ERROR
          "Invalid UTF-16LE encoding") := by
  simp only [detect_and_decode, decodeUtf8_ff, from_utf16le, chunksLE, chunkPairs]
  norm_num

theorem detect_and_decode_bom_be (rest : List Nat) :
    detect_and_decode (0xFE :: 0xFF :: rest) =
      match decodeUtf16 (0xFEFF :: chunksBE rest) with
      | some s => .ok s
      | none => .error (BackendError.new errors.file.ENCODING_ERROR
          "Invalid UTF-16BE encoding") := by
  simp only [detect_and_decode, decodeUtf8_fe, from_utf16be, chunksBE, chunkPairs]
  norm_num

theorem chunkPairs_dropLast (f : Nat → Nat → Nat) :
    ∀ l : List Nat, l.length % 2 = 1 → chunkPairs f l = chunkPairs f l.dropLast
  | [], h => by simp at h
  | [b], _ => rfl
  | b0 :: b1 :: l, h => by
      have hl : l.length % 2 = 1 := by
        simp [List.length_cons] at h
        omega
      have ih := chunkPairs_dropLast f l hl
      rcases l with _ | ⟨x, xs⟩
      · simp at hl
      · have hd : (b0 :: b1 :: x :: xs).dropLast = b0 :: b1 :: (x :: xs).dropLast := by
          simp
        rw [hd]
        show f b0 b1 :: chunkPairs f (x :: xs) =
          f b0 b1 :: chunkPairs f ((x :: xs).dropLast)
        rw [ih]

/-- C3 (amended): for a byte sequence `FF FE` (resp. `FE FF`) followed by
a valid UTF-16 LE (resp. BE) stream, `detect_and_decode` decodes the
bytes after the BOM to the original text but keeps the BOM itself as a
leading `U+FEFF` character — the code hands the whole byte slice, BOM
included, to the UTF-16 decoder; an invalid surrogate sequence yields an
`ENCODING_ERROR` value, never a panic. -/
theorem utf16_roundtrip_with_bom :
    (∀ t : List Nat, (∀ c ∈ t, isValidScalar c = true) →
        detect_and_decode (0xFF :: 0xFE :: wordsToBytesLE (utf16Encode t)) =
          .ok (0xFEFF :: t)) ∧
    (∀ t : List Nat, (∀ c ∈ t, isValidScalar c = true) →
        detect_and_decode (0xFE :: 0xFF :: wordsToBytesBE (utf16Encode t)) =
          .ok (0xFEFF :: t)) ∧
    (∀ bs : List Nat, decodeUtf16 (chunksLE bs) = none →
        detect_and_decode (0xFF :: 0xFE :: bs) =
          .error (BackendError.new errors.file.ENCODING_ERROR
            "Invalid UTF-16LE encoding")) ∧
    (∀ bs : List Nat, decodeUtf16 (chunksBE bs) = none →
        detect_and_decode (0xFE :: 0xFF :: bs) =
          .error (BackendError.new errors.file.ENCODING_ERROR
            "Invalid UTF-16BE encoding")) := by
  refine ⟨?_, ?_, ?_, ?_⟩
  · intro t ht
    rw [detect_and_decode_bom_le,
      chunksLE_wordsToBytesLE _ (utf16Encode_lt t ht),
      decodeUtf16_bmp_cons 0xFEFF _ (by norm_num),
      decodeUtf16_utf16Encode t ht]
    rfl
  · intro t ht
    rw [detect_and_decode_bom_be,
      chunksBE_wordsToBytesBE _ (utf16Encode_lt t ht),
      decodeUtf16_bmp_cons 0xFEFF _ (by norm_num),
      decodeUtf16_utf16Encode t ht]
    rfl
  · intro bs hbs
    rw [detect_and_decode_bom_le,
      decodeUtf16_bmp_cons 0xFEFF _ (by norm_num), hbs]
    rfl
  · intro bs hbs
    rw [detect_and_decode_bom_be,
      decodeUtf16_bmp_cons 0xFEFF _ (by norm_num), hbs]
    rfl

/-- C3 counterexample: the bytes `FF FE 41 00` are the UTF-16 LE encoding
of the text `"A"` with a BOM, yet `detect_and_decode` returns
`[U+FEFF, 'A']`, not `['A']` — the decoded text is not the original text,
because the BOM is not stripped. -/
theorem detect_and_decode_bom_retained :
    detect_and_decode [0xFF, 0xFE, 0x41, 0x00] = .ok [0xFEFF, 0x41] ∧
    wordsToBytesLE (utf16Encode [0x41]) = [0x41, 0x00] ∧
    detect_and_decode [0xFF, 0xFE, 0x41, 0x00] ≠ .ok [0x41] := by
  refine ⟨rfl, rfl, ?_⟩
  intro h
  rw [show detect_and_decode [0xFF, 0xFE, 0x41, 0x00] =
    Except.ok [0xFEFF, 0x41] from rfl] at h
  injection h with h
  simp at h

/-- C10: on a BOM-prefixed byte sequence of odd length, the UTF-16
decoder silently drops the final unpaired byte (`chunks_exact(2)`
discards the remainder): decoding equals decoding of the same sequence
with its last byte removed, so an odd trailing byte never by itself
produces an encoding error. -/
theorem utf16_odd_trailing_byte_dropped :
    (∀ rest : List Nat, rest.length % 2 = 1 →
        detect_and_decode (0xFF :: 0xFE :: rest) =
          detect_and_decode (0xFF :: 0xFE :: rest.dropLast)) ∧
    (∀ rest : List Nat, rest.length % 2 = 1 →
        detect_and_decode (0xFE :: 0xFF :: rest) =
          detect_and_decode (0xFE :: 0xFF :: rest.dropLast)) := by
  constructor
  · intro rest h
    rw [detect_and_decode_bom_le, detect_and_decode_bom_le,
      show chunksLE rest = chunksLE rest.dropLast from chunkPairs_dropLast _ rest h]
  · intro rest h
    rw [detect_and_decode_bom_be, detect_and_decode_bom_be,
      show chunksBE rest = chunksBE rest.dropLast from chunkPairs_dropLast _ rest h]

/-- C8: on input that is not valid UTF-8 and does not begin with a UTF-16
BOM, `detect_and_decode` always succeeds and maps each byte
independently: bytes in `0x80..0x9F` go to `0x20AC + (b - 0x80)` (all
such values are valid scalars, so the `'?'` fallback never fires), every
other byte to its own value. -/
theorem detect_and_decode_fallback_spec :
    (∀ bs : List Nat, decodeUtf8 bs = none → bs.take 2 ≠ [0xFF, 0xFE] →
        bs.take 2 ≠ [0xFE, 0xFF] →
        detect_and_decode bs = .ok (bs.map win1252Byte)) ∧
    (∀ b : Nat, 0x80 ≤ b → b ≤ 0x9F → win1252Byte b = 0x20AC + (b - 0x80)) ∧
    (∀ b : Nat, b < 0x80 ∨ 0x9F < b → win1252Byte b = b) := by
  refine ⟨?_, ?_, ?_⟩
  · intro bs h8 h1 h2
    rcases bs with _ | ⟨b0, _ | ⟨b1, rest⟩⟩
    · simp [decodeUtf8] at h8
    · simp only [detect_and_decode, h8]
    · have h1' : ¬(b0 = 0xFF ∧ b1 = 0xFE) := by
        intro hx
        exact h1 (by simp [hx.1, hx.2])
      have h2' : ¬(b0 = 0xFE ∧ b1 = 0xFF) := by
        intro hx
        exact h2 (by simp [hx.1, hx.2])
      simp only [detect_and_decode, h8]
      rw [if_neg (by simpa using h1'), if_neg (by simpa using h2')]
  · intro b hb1 hb2
    rw [win1252Byte, if_pos (by simp; omega), if_pos (by simp [isValidScalar]; omega)]
  · intro b hb
    rw [win1252Byte, if_neg (by simp; omega)]

end ClassroomApp
